import Mathlib

/-
Verification of the AutoGrafoni pagination engine and document packer.

The pagination engine is `to_svg_no_display` in grafoni_utils.py; the
document packer is `GrafoniConverter.convert_text` in
gutenberg_to_grafoni.py.  The glyph shaper (the `grafoni` module) is an
external collaborator: its tables and stroke-composition primitives are
modelled as an abstract `Shaper` record, exactly as the engine consumes
them.  Coordinates are modelled over an arbitrary linearly ordered
commutative ring (the engine performs only +, *, - and comparisons);
witnesses instantiate it with ℤ.
-/

namespace AutoGrafoni

variable {α : Type} [LinearOrderedCommRing α]

/-- A drawing command.  The Python code represents commands as tuples
whose first entry is a tag and whose last two entries are the endpoint
coordinates (`out[-1][-2]`, `out[-1][-1]`); `draw` carries an opaque list
of intermediate points produced by the shaper. -/
inductive Cmd (α : Type) where
  | move (x y : α)
  | draw (pts : List (α × α)) (x y : α)
deriving DecidableEq

/-- The x coordinate of a command's endpoint (Python `cmd[-2]`). -/
def Cmd.px : Cmd α → α
  | .move x _ => x
  | .draw _ x _ => x

/-- The y coordinate of a command's endpoint (Python `cmd[-1]`). -/
def Cmd.py : Cmd α → α
  | .move _ y => y
  | .draw _ _ y => y

/-- Pen x position: endpoint of the last command in the buffer
(Python `out[-1][-2]`; the buffer is never empty in the source, the
default is irrelevant junk). -/
def penX (out : List (Cmd α)) : α :=
  match out.getLast? with
  | some c => c.px
  | none => 0

/-- Pen y position (Python `out[-1][-1]`). -/
def penY (out : List (Cmd α)) : α :=
  match out.getLast? with
  | some c => c.py
  | none => 0

/-- The external glyph shaper (the `grafoni` module), as consumed by
`to_svg_no_display`: letter-form and ligature tables, kerning and nudge
tables, first/last character projections, and the stroke-list
composition primitives.  All are opaque to the pagination engine. -/
structure Shaper (α : Type) where
  letter_forms : String → Option (List (Cmd α))
  ligatures : String → Option (List (Cmd α))
  kerning : String → String → α × α
  nudge_kern : String → String → α
  last : String → String
  first : String → String
  r_extend : List (Cmd α) → α → List (Cmd α)
  l_extend : List (Cmd α) → α → List (Cmd α)
  v_nudge : List (Cmd α) → α → List (Cmd α)
  concat : List (Cmd α) → List (Cmd α) → List (Cmd α)

/-- Configuration of one `to_svg_no_display` call (its keyword
parameters): `wrap`, `page_height`, `remaining_page_height` (optional),
`shear_val`, `line_space`, `v_scale`. -/
structure WrapCfg (α : Type) where
  wrap : α
  page_height : α
  remaining_page_height : Option α
  shear_val : α
  line_space : α
  v_scale : α

/-- The mutable state of the `for l in chars` loop in
`to_svg_no_display`.  `breaks` is ghost instrumentation: it records
`(new_x, new_y, pen_y)` for every synthetic line-break `Move` appended
at line 50 of grafoni_utils.py, and is otherwise inert. -/
structure EngState (α : Type) where
  out : List (Cmd α)
  last_char : String
  current_page_strokes : List (Cmd α)
  current_y : α
  svg_list : List (List (Cmd α))
  remaining : α
  diags : List String
  breaks : List (α × α × α)
deriving DecidableEq

/-- One shaping composition, grafoni_utils.py lines 34-35 / 40-41:
`concat(v_nudge(r_extend(out, l_kern), n_val), l_extend(frag, r_kern))`
with `(l_kern, r_kern) = kerning[(last(last_char), first(l))]` and
`n_val = nudge_kern[(last(last_char), first(l))]`. -/
def shapeWith (sh : Shaper α) (out : List (Cmd α)) (lc l : String)
    (frag : List (Cmd α)) : List (Cmd α) :=
  let k := sh.kerning (sh.last lc) (sh.first l)
  let n := sh.nudge_kern (sh.last lc) (sh.first l)
  sh.concat (sh.v_nudge (sh.r_extend out k.1) n) (sh.l_extend frag k.2)

/-- Whether a token resolves against either shaper table
(`l in grafoni.letter_forms` or `l in grafoni.ligatures`). -/
def shapeable (sh : Shaper α) (l : String) : Bool :=
  (sh.letter_forms l).isSome || (sh.ligatures l).isSome

/-- The stroke buffer after the shape-or-skip phase of one loop
iteration (lines 30-43): shaped via the letter-form table, else via the
ligature table, else unchanged. -/
def shapeOut (sh : Shaper α) (s : EngState α) (l : String) : List (Cmd α) :=
  match sh.letter_forms l with
  | some frag => shapeWith sh s.out s.last_char l frag
  | none =>
    match sh.ligatures l with
    | some frag => shapeWith sh s.out s.last_char l frag
    | none => s.out

/-- `last_char` after the shape-or-skip phase: updated to the consumed
token when it is shapeable, left unchanged otherwise. -/
def shapeLC (sh : Shaper α) (s : EngState α) (l : String) : String :=
  if shapeable sh l then l else s.last_char

/-- Diagnostics after the shape-or-skip phase: line 43 prints
"Unsupported Character: …" for a token in neither table. -/
def shapeDiags (sh : Shaper α) (s : EngState α) (l : String) : List String :=
  if shapeable sh l then s.diags else s.diags ++ ["Unsupported Character: " ++ l]

/-- The projected pen x used by the wrap test (line 46):
`out[-1][-2] + shear_val * v_scale * out[-1][-1]`. -/
def projX (cfg : WrapCfg α) (out : List (Cmd α)) : α :=
  penX out + cfg.shear_val * cfg.v_scale * penY out

/-- Modelled from the spec: the geometric part of the Page Finalizer.
`grafoni.scale(strokes, 1, v_scale)` followed by
`grafoni.shear(-, by=shear_val)` (grafoni_utils.py lines 56 and 74); the
`grafoni` module itself is not part of src/, and spec section 4.3 fixes
the transform as non-uniform scale `(1, vertical_scale)` then shear by
`shear_value`, the shear mapping `(x, y)` to `(x + shear_value*y, y)`
consistently with the projection used by the wrap test.  The subsequent
`svgStrokes` rasterization is an opaque external step, so a Finished
Page is represented by its transformed stroke list. -/
def pageOf (cfg : WrapCfg α) (strokes : List (Cmd α)) : List (Cmd α) :=
  (strokes.map fun c =>
    match c with
    | .move x y => Cmd.move (x + cfg.shear_val * (cfg.v_scale * y)) (cfg.v_scale * y)
    | .draw pts x y =>
        Cmd.draw (pts.map fun q => (q.1 + cfg.shear_val * (cfg.v_scale * q.2), cfg.v_scale * q.2))
          (x + cfg.shear_val * (cfg.v_scale * y)) (cfg.v_scale * y))

/-- Initial loop state (lines 19-27): buffer `[('move',0,0)]`,
`last_char = " "`, empty page snapshot, `current_y = 0`, no pages, and
`remaining_page_height` defaulting to `page_height` when absent. -/
def initState (cfg : WrapCfg α) : EngState α :=
  { out := [Cmd.move 0 0]
    last_char := " "
    current_page_strokes := []
    current_y := 0
    svg_list := []
    remaining := cfg.remaining_page_height.getD cfg.page_height
    diags := []
    breaks := [] }

/-- One iteration of the `for l in chars` loop (lines 29-70).  After the
shape-or-skip phase: if `last_char == " "` and the projected pen exceeds
`wrap`, a synthetic line-break `Move` targeting
`(-shear_val*v_scale*(pen_y+line_space), pen_y+line_space)` is appended
(line 50) and `current_y` becomes the new line's y; if `current_y` then
exceeds `remaining_page_height`, the stale snapshot
`current_page_strokes` is finalized into a page, the snapshot is reset
to the single trailing `Move` (`out[-1:]`), the working buffer is reset
to `[('move',0,0)]`, `current_y` to `line_space`, `remaining` to the
full `page_height`, `last_char` to `" "`, and the iteration ends with
`continue`; otherwise the iteration falls through to line 70, which
replaces the snapshot with a copy of the buffer. -/
def step (sh : Shaper α) (cfg : WrapCfg α) (s : EngState α) (l : String) : EngState α :=
  if shapeLC sh s l = " " ∧ projX cfg (shapeOut sh s l) > cfg.wrap then
    if penY (shapeOut sh s l) + cfg.line_space > s.remaining then
      { out := [Cmd.move 0 0]
        last_char := " "
        current_page_strokes :=
          [Cmd.move (-cfg.shear_val * cfg.v_scale * (penY (shapeOut sh s l) + cfg.line_space))
            (penY (shapeOut sh s l) + cfg.line_space)]
        current_y := cfg.line_space
        svg_list := s.svg_list ++ [pageOf cfg s.current_page_strokes]
        remaining := cfg.page_height
        diags := shapeDiags sh s l
        breaks := s.breaks ++
          [(-cfg.shear_val * cfg.v_scale * (penY (shapeOut sh s l) + cfg.line_space),
            penY (shapeOut sh s l) + cfg.line_space, penY (shapeOut sh s l))] }
    else
      { out := shapeOut sh s l ++
          [Cmd.move (-cfg.shear_val * cfg.v_scale * (penY (shapeOut sh s l) + cfg.line_space))
            (penY (shapeOut sh s l) + cfg.line_space)]
        last_char := shapeLC sh s l
        current_page_strokes := shapeOut sh s l ++
          [Cmd.move (-cfg.shear_val * cfg.v_scale * (penY (shapeOut sh s l) + cfg.line_space))
            (penY (shapeOut sh s l) + cfg.line_space)]
        current_y := penY (shapeOut sh s l) + cfg.line_space
        svg_list := s.svg_list
        remaining := s.remaining
        diags := shapeDiags sh s l
        breaks := s.breaks ++
          [(-cfg.shear_val * cfg.v_scale * (penY (shapeOut sh s l) + cfg.line_space),
            penY (shapeOut sh s l) + cfg.line_space, penY (shapeOut sh s l))] }
  else
    { out := shapeOut sh s l
      last_char := shapeLC sh s l
      current_page_strokes := shapeOut sh s l
      current_y := s.current_y
      svg_list := s.svg_list
      remaining := s.remaining
      diags := shapeDiags sh s l
      breaks := s.breaks }

/-- The loop, folded over the token list (Python iterates the result of
`grafoni.to_list`; the engine also accepts a pre-tokenized list). -/
def runTokens (sh : Shaper α) (cfg : WrapCfg α) (tokens : List String) : EngState α :=
  tokens.foldl (step sh cfg) (initState cfg)

/-- `to_svg_no_display` (lines 9-80): run the loop, then flush the final
snapshot if it is non-empty (`if current_page_strokes:` at line 73). -/
def toSvgNoDisplay (sh : Shaper α) (cfg : WrapCfg α) (tokens : List String) :
    List (List (Cmd α)) :=
  let s := runTokens sh cfg tokens
  s.svg_list ++ if s.current_page_strokes = [] then [] else [pageOf cfg s.current_page_strokes]

/-! ## The document packer (`GrafoniConverter.convert_text`) -/

/-- A rendered SVG object as the packer sees it: only its measured
height is consulted (`svg.height`, gutenberg_to_grafoni.py line 213). -/
structure Svg (α : Type) where
  height : α
deriving DecidableEq

/-- The `GrafoniConverter` configuration fields used by `convert_text`:
`page_height`, `paragraph_spacing` and the `max_pages` argument. -/
structure PackCfg (α : Type) where
  page_height : α
  paragraph_spacing : α
  max_pages : ℕ

/-- The stored text excerpt (line 216):
`paragraph[:50] + "..." if len(paragraph) > 50 else paragraph`. -/
def excerptOf (p : String) : String :=
  if p.length > 50 then p.take 50 ++ "..." else p

/-- One `{text, svg}` entry of a page group. -/
abbrev Item (α : Type) := String × Svg α

/-- A Page Group: everything placed on one physical output page. -/
abbrev Group (α : Type) := List (Item α)

/-- The mutable state of the paragraph loop in `convert_text`
(lines 188-191). -/
structure PackState (α : Type) where
  grafoni_pages : List (Group α)
  current_page : Group α
  current_page_height : α
  page_count : ℕ
deriving DecidableEq

/-- Initial packer state: no groups, empty current page, zero height
and count. -/
def initPack : PackState α :=
  { grafoni_pages := [], current_page := [], current_page_height := 0, page_count := 0 }

/-- The inner `for svg in svg_list` loop (lines 210-234): if the page
fits (`current_page_height + svg.height + paragraph_spacing ≤
page_height`) it is appended to the current group; otherwise the current
group, when non-empty, is sealed (appended to `grafoni_pages`,
incrementing `page_count`, breaking out of the loop when the count
reaches `max_pages`), and the current group restarts with just this
page. -/
def placeSvgs (cfg : PackCfg α) (p : String) :
    List (Svg α) → PackState α → PackState α
  | [], st => st
  | svg :: rest, st =>
    if st.current_page_height + svg.height + cfg.paragraph_spacing ≤ cfg.page_height then
      placeSvgs cfg p rest
        { st with
          current_page := st.current_page ++ [(excerptOf p, svg)]
          current_page_height := st.current_page_height + svg.height + cfg.paragraph_spacing }
    else
      if st.current_page = [] then
        placeSvgs cfg p rest
          { st with
            current_page := [(excerptOf p, svg)]
            current_page_height := svg.height + cfg.paragraph_spacing }
      else
        let st1 : PackState α :=
          { st with
            grafoni_pages := st.grafoni_pages ++ [st.current_page]
            page_count := st.page_count + 1 }
        if st1.page_count ≥ cfg.max_pages then st1
        else
          placeSvgs cfg p rest
            { st1 with
              current_page := [(excerptOf p, svg)]
              current_page_height := svg.height + cfg.paragraph_spacing }

/-- The outer `for paragraph in paragraphs` loop (lines 194-234), run
inside the single `try` of lines 193-238: stops early when `page_count`
reaches `max_pages`; calls the engine with
`remaining_height = page_height - current_page_height`; a raised error
from the engine propagates out of the whole loop.  The engine call is
abstracted as `toSvg`, an `Except`-valued function of the paragraph and
the remaining height. -/
def packLoop (cfg : PackCfg α) (toSvg : String → α → Except String (List (Svg α))) :
    List String → PackState α → Except String (PackState α)
  | [], st => .ok st
  | p :: ps, st =>
    if st.page_count ≥ cfg.max_pages then .ok st
    else
      match toSvg p (cfg.page_height - st.current_page_height) with
      | .error e => .error e
      | .ok svgs => packLoop cfg toSvg ps (placeSvgs cfg p svgs st)

/-- `convert_text` from the paragraph list on (lines 188-244): on any
raised error the `except` handler returns `[]` (line 238); otherwise the
final unsealed group is appended when non-empty and the cap is not
reached (`if current_page and page_count < max_pages`, line 241). -/
def convertText (cfg : PackCfg α) (toSvg : String → α → Except String (List (Svg α)))
    (paragraphs : List String) : List (Group α) :=
  match packLoop cfg toSvg paragraphs initPack with
  | .error _ => []
  | .ok st =>
    st.grafoni_pages ++
      if st.current_page ≠ [] ∧ st.page_count < cfg.max_pages then [st.current_page] else []

/-- Accumulated height of a group, as the packer accounts it: each item
contributes `svg.height + paragraph_spacing`. -/
def groupHeight (cfg : PackCfg α) (g : Group α) : α :=
  (g.map fun it => it.2.height + cfg.paragraph_spacing).sum

/-! ## Concrete instances used by witnesses and counterexamples -/

/-- Translate a command by a vector (used only by the concrete witness
shaper below). -/
def shiftCmd (p : ℤ × ℤ) : Cmd ℤ → Cmd ℤ
  | .move x y => .move (x + p.1) (y + p.2)
  | .draw pts x y => .draw (pts.map fun q => (q.1 + p.1, q.2 + p.2)) (x + p.1) (y + p.2)

/-- A concrete witness shaper over ℤ: token "a" advances the pen by 10,
token " " by 5; everything else is unshapeable; kerning and nudging are
trivial and `concat` appends the fragment translated to the pen. -/
def shW : Shaper ℤ where
  letter_forms l :=
    if l = "a" then some [Cmd.draw [] 10 0]
    else if l = " " then some [Cmd.draw [] 5 0]
    else none
  ligatures _ := none
  kerning _ _ := (0, 0)
  nudge_kern _ _ := 0
  last t := t
  first t := t
  r_extend out _ := out
  l_extend frag _ := frag
  v_nudge out _ := out
  concat a b := a ++ b.map (shiftCmd (penX a, penY a))

/-- Witness engine configuration: wrap 20, page height 30, no inherited
remaining height, shear -1, line spacing 20, vertical scale 1. -/
def cfgW : WrapCfg ℤ :=
  { wrap := 20, page_height := 30, remaining_page_height := none,
    shear_val := -1, line_space := 20, v_scale := 1 }

/-- Engine configuration with a non-positive page height (0), otherwise
like `cfgW`. -/
def cfgZeroH : WrapCfg ℤ :=
  { wrap := 20, page_height := 0, remaining_page_height := none,
    shear_val := -1, line_space := 20, v_scale := 1 }

/-- Token sequence driving one internal page break under `shW`/`cfgW`:
two words of two and three letters; the second trailing space overflows
both the wrap width and the page budget. -/
def toksBreak : List String := ["a", "a", " ", "a", "a", "a", " "]

/-- The same sequence without its final space: the page break fires on
the next " " token. -/
def toksBeforeBreak : List String := ["a", "a", " ", "a", "a", "a"]

/-- Witness packer configuration: physical page height 100, paragraph
spacing 2, at most 1000 groups. -/
def packCfgW : PackCfg ℤ :=
  { page_height := 100, paragraph_spacing := 2, max_pages := 1000 }

/-- Concrete packer engine stub: paragraph "bad" raises, every other
paragraph yields two pages of height 90 (so that a successful paragraph
seals one group). -/
def toSvgFail : String → ℤ → Except String (List (Svg ℤ)) :=
  fun p _ => if p = "bad" then .error "boom" else .ok [Svg.mk 90, Svg.mk 90]

/-- Concrete packer engine stub producing two oversized pages
(height 200 each, against a physical budget of 100). -/
def toSvgBig : String → ℤ → Except String (List (Svg ℤ)) :=
  fun _ _ => .ok [Svg.mk 200, Svg.mk 200]

/-- Concrete packer engine stub producing one small page (height 10). -/
def toSvgSmall : String → ℤ → Except String (List (Svg ℤ)) :=
  fun _ _ => .ok [Svg.mk 10]

/-! ## Helper lemmas about the engine step -/

/-- The target of the synthetic line-break `Move` of one iteration. -/
def brkY (sh : Shaper α) (cfg : WrapCfg α) (s : EngState α) (l : String) : α :=
  penY (shapeOut sh s l) + cfg.line_space

/-- The line-break `Move` appended at line 50. -/
def brkMove (sh : Shaper α) (cfg : WrapCfg α) (s : EngState α) (l : String) : Cmd α :=
  Cmd.move (-cfg.shear_val * cfg.v_scale * brkY sh cfg s l) (brkY sh cfg s l)

lemma step_no_wrap (sh : Shaper α) (cfg : WrapCfg α) (s : EngState α) (l : String)
    (h : ¬(shapeLC sh s l = " " ∧ projX cfg (shapeOut sh s l) > cfg.wrap)) :
    step sh cfg s l =
      { out := shapeOut sh s l
        last_char := shapeLC sh s l
        current_page_strokes := shapeOut sh s l
        current_y := s.current_y
        svg_list := s.svg_list
        remaining := s.remaining
        diags := shapeDiags sh s l
        breaks := s.breaks } := by
  unfold step
  rw [if_neg h]

lemma step_wrap_no_flush (sh : Shaper α) (cfg : WrapCfg α) (s : EngState α) (l : String)
    (h1 : shapeLC sh s l = " ") (h2 : projX cfg (shapeOut sh s l) > cfg.wrap)
    (h3 : ¬(penY (shapeOut sh s l) + cfg.line_space > s.remaining)) :
    step sh cfg s l =
      { out := shapeOut sh s l ++ [brkMove sh cfg s l]
        last_char := shapeLC sh s l
        current_page_strokes := shapeOut sh s l ++ [brkMove sh cfg s l]
        current_y := brkY sh cfg s l
        svg_list := s.svg_list
        remaining := s.remaining
        diags := shapeDiags sh s l
        breaks := s.breaks ++
          [(-cfg.shear_val * cfg.v_scale * brkY sh cfg s l, brkY sh cfg s l,
            penY (shapeOut sh s l))] } := by
  unfold step
  rw [if_pos ⟨h1, h2⟩, if_neg h3]
  rfl

lemma step_flush (sh : Shaper α) (cfg : WrapCfg α) (s : EngState α) (l : String)
    (h1 : shapeLC sh s l = " ") (h2 : projX cfg (shapeOut sh s l) > cfg.wrap)
    (h3 : penY (shapeOut sh s l) + cfg.line_space > s.remaining) :
    step sh cfg s l =
      { out := [Cmd.move 0 0]
        last_char := " "
        current_page_strokes := [brkMove sh cfg s l]
        current_y := cfg.line_space
        svg_list := s.svg_list ++ [pageOf cfg s.current_page_strokes]
        remaining := cfg.page_height
        diags := shapeDiags sh s l
        breaks := s.breaks ++
          [(-cfg.shear_val * cfg.v_scale * brkY sh cfg s l, brkY sh cfg s l,
            penY (shapeOut sh s l))] } := by
  unfold step
  rw [if_pos ⟨h1, h2⟩, if_pos h3]
  rfl

lemma penX_snoc (xs : List (Cmd α)) (c : Cmd α) : penX (xs ++ [c]) = c.px := by
  simp [penX, List.getLast?_concat]

lemma penY_snoc (xs : List (Cmd α)) (c : Cmd α) : penY (xs ++ [c]) = c.py := by
  simp [penY, List.getLast?_concat]

/-- Any invariant preserved by `step` and holding initially holds after
the whole run. -/
lemma run_inv (sh : Shaper α) (cfg : WrapCfg α) (P : EngState α → Prop)
    (h0 : P (initState cfg)) (hs : ∀ s l, P s → P (step sh cfg s l))
    (tokens : List String) : P (runTokens sh cfg tokens) := by
  suffices h : ∀ (ts : List String) (s : EngState α), P s → P (ts.foldl (step sh cfg) s) from
    h tokens _ h0
  intro ts
  induction ts with
  | nil => intro s hP; exact hP
  | cons t ts ih => intro s hP; exact ih _ (hs s t hP)

lemma runTokens_nil (sh : Shaper α) (cfg : WrapCfg α) :
    runTokens sh cfg [] = initState cfg := rfl

lemma runTokens_snoc (sh : Shaper α) (cfg : WrapCfg α) (ts : List String) (t : String) :
    runTokens sh cfg (ts ++ [t]) = step sh cfg (runTokens sh cfg ts) t := by
  simp [runTokens, List.foldl_append]

lemma shapeOut_of_not_shapeable (sh : Shaper α) (s : EngState α) (l : String)
    (h : shapeable sh l = false) : shapeOut sh s l = s.out := by
  rcases Bool.or_eq_false_iff.mp h with ⟨h1, h2⟩
  have e1 : sh.letter_forms l = none := Option.not_isSome_iff_eq_none.mp (by simp [h1])
  have e2 : sh.ligatures l = none := Option.not_isSome_iff_eq_none.mp (by simp [h2])
  simp [shapeOut, e1, e2]

lemma shapeLC_of_not_shapeable (sh : Shaper α) (s : EngState α) (l : String)
    (h : shapeable sh l = false) : shapeLC sh s l = s.last_char := by
  simp [shapeLC, h]

lemma shapeLC_of_shapeable (sh : Shaper α) (s : EngState α) (l : String)
    (h : shapeable sh l = true) : shapeLC sh s l = l := by
  simp [shapeLC, h]

/-- Margin invariant: along any run with a non-negative wrap width,
whenever `last_char` is the word boundary the projected pen does not
exceed the wrap width (a line break, a page break, or a failed wrap
test has just brought it back within budget). -/
lemma margin_inv (sh : Shaper α) (cfg : WrapCfg α) (hw : (0 : α) ≤ cfg.wrap)
    (tokens : List String) :
    (runTokens sh cfg tokens).last_char = " " →
      projX cfg (runTokens sh cfg tokens).out ≤ cfg.wrap := by
  refine run_inv sh cfg
    (fun s => s.last_char = " " → projX cfg s.out ≤ cfg.wrap) ?_ ?_ tokens
  · intro _
    simpa [initState, projX, penX, penY, Cmd.px, Cmd.py] using hw
  · intro s l _
    by_cases hg : shapeLC sh s l = " " ∧ projX cfg (shapeOut sh s l) > cfg.wrap
    · by_cases hf : penY (shapeOut sh s l) + cfg.line_space > s.remaining
      · rw [step_flush sh cfg s l hg.1 hg.2 hf]
        intro _
        simpa [projX, penX, penY, Cmd.px, Cmd.py] using hw
      · rw [step_wrap_no_flush sh cfg s l hg.1 hg.2 hf]
        intro _
        have hx : projX cfg (shapeOut sh s l ++ [brkMove sh cfg s l]) = 0 := by
          rw [projX, penX_snoc, penY_snoc]
          simp only [brkMove, Cmd.px, Cmd.py]
          ring
        rw [hx]; exact hw
    · rw [step_no_wrap sh cfg s l hg]
      intro hlc
      rcases not_and_or.mp hg with h | h
      · exact absurd hlc h
      · exact le_of_not_lt h

/-- An unshapeable token leaves the whole state unchanged except for the
diagnostic and the line-70 snapshot copy, provided the pen is within the
wrap budget whenever `last_char` is the word boundary. -/
lemma step_unshapeable (sh : Shaper α) (cfg : WrapCfg α) (s : EngState α) (l : String)
    (hinv : s.last_char = " " → projX cfg s.out ≤ cfg.wrap)
    (h1 : sh.letter_forms l = none) (h2 : sh.ligatures l = none) :
    step sh cfg s l =
      { s with
        diags := s.diags ++ ["Unsupported Character: " ++ l]
        current_page_strokes := s.out } := by
  have hsh : shapeable sh l = false := by simp [shapeable, h1, h2]
  have ho := shapeOut_of_not_shapeable sh s l hsh
  have hlc := shapeLC_of_not_shapeable sh s l hsh
  have hg : ¬(shapeLC sh s l = " " ∧ projX cfg (shapeOut sh s l) > cfg.wrap) := by
    rw [hlc, ho]
    rintro ⟨ha, hb⟩
    exact absurd hb (not_lt.mpr (hinv ha))
  have hd : shapeDiags sh s l = s.diags ++ ["Unsupported Character: " ++ l] := by
    simp [shapeDiags, hsh]
  rw [step_no_wrap sh cfg s l hg, ho, hlc, hd]

/-- The flush test of one step, characterized: the page count grows by
one exactly when a line break was inserted in this step and the new
cumulative offset exceeds the current remaining page height. -/
lemma step_flush_iff (sh : Shaper α) (cfg : WrapCfg α) (s : EngState α) (l : String) :
    (step sh cfg s l).svg_list.length = s.svg_list.length + 1 ↔
      ((step sh cfg s l).breaks.length = s.breaks.length + 1 ∧
        penY (shapeOut sh s l) + cfg.line_space > s.remaining) := by
  by_cases hg : shapeLC sh s l = " " ∧ projX cfg (shapeOut sh s l) > cfg.wrap
  · by_cases hf : penY (shapeOut sh s l) + cfg.line_space > s.remaining
    · rw [step_flush sh cfg s l hg.1 hg.2 hf]
      exact iff_of_true (by simp) ⟨by simp, hf⟩
    · rw [step_wrap_no_flush sh cfg s l hg.1 hg.2 hf]
      exact iff_of_false (by simp) (fun h => hf h.2)
  · rw [step_no_wrap sh cfg s l hg]
    exact iff_of_false (by simp) (fun h => by have hb := h.1; simp at hb)

/-- After a flushing step, `current_y` has been reset to one
`line_space` and the remaining page height to the full `page_height`. -/
lemma step_flush_resets (sh : Shaper α) (cfg : WrapCfg α) (s : EngState α) (l : String)
    (h : (step sh cfg s l).svg_list.length = s.svg_list.length + 1) :
    (step sh cfg s l).current_y = cfg.line_space ∧
      (step sh cfg s l).remaining = cfg.page_height := by
  by_cases hg : shapeLC sh s l = " " ∧ projX cfg (shapeOut sh s l) > cfg.wrap
  · by_cases hf : penY (shapeOut sh s l) + cfg.line_space > s.remaining
    · rw [step_flush sh cfg s l hg.1 hg.2 hf]
      exact ⟨rfl, rfl⟩
    · rw [step_wrap_no_flush sh cfg s l hg.1 hg.2 hf] at h
      simp at h
  · rw [step_no_wrap sh cfg s l hg] at h
    simp at h

/-- Along any run, the remaining page height equals the inherited
first-page budget until the first internal flush, and the full page
height from then on. -/
lemma remaining_inv (sh : Shaper α) (cfg : WrapCfg α) (tokens : List String) :
    ((runTokens sh cfg tokens).svg_list = [] →
        (runTokens sh cfg tokens).remaining = cfg.remaining_page_height.getD cfg.page_height) ∧
      ((runTokens sh cfg tokens).svg_list ≠ [] →
        (runTokens sh cfg tokens).remaining = cfg.page_height) := by
  refine run_inv sh cfg
    (fun s => (s.svg_list = [] → s.remaining = cfg.remaining_page_height.getD cfg.page_height) ∧
      (s.svg_list ≠ [] → s.remaining = cfg.page_height)) ⟨fun _ => rfl, fun h => absurd rfl h⟩
    ?_ tokens
  intro s l hP
  by_cases hg : shapeLC sh s l = " " ∧ projX cfg (shapeOut sh s l) > cfg.wrap
  · by_cases hf : penY (shapeOut sh s l) + cfg.line_space > s.remaining
    · rw [step_flush sh cfg s l hg.1 hg.2 hf]
      exact ⟨fun h => by simp at h, fun _ => rfl⟩
    · rw [step_wrap_no_flush sh cfg s l hg.1 hg.2 hf]
      exact hP
  · rw [step_no_wrap sh cfg s l hg]
    exact hP

/-! ## Claim theorems -/

/-- C5: every synthetic line-break Move appended by the Line Wrap
Decider targets `new_y = pen_y + line_spacing` and
`new_x = -shear_value * vertical_scale * new_y`, with `new_y` the Move's
own y — so consecutive line breaks carry no additively inherited
horizontal drift: the ghost trace `breaks` records `(new_x, new_y,
pen_y)` for every inserted Move, and each entry satisfies both
equations. -/
theorem break_move_shear_compensation (sh : Shaper α) (cfg : WrapCfg α)
    (tokens : List String) :
    ∀ t ∈ (runTokens sh cfg tokens).breaks,
      t.1 = -cfg.shear_val * cfg.v_scale * t.2.1 ∧ t.2.1 = t.2.2 + cfg.line_space := by
  refine run_inv sh cfg
    (fun s => ∀ t ∈ s.breaks,
      t.1 = -cfg.shear_val * cfg.v_scale * t.2.1 ∧ t.2.1 = t.2.2 + cfg.line_space)
    ?_ ?_ tokens
  · intro t ht
    simp [initState] at ht
  · intro s l hP
    by_cases hg : shapeLC sh s l = " " ∧ projX cfg (shapeOut sh s l) > cfg.wrap
    · have hnew : ∀ t ∈ (s.breaks ++
          [(-cfg.shear_val * cfg.v_scale * brkY sh cfg s l, brkY sh cfg s l,
            penY (shapeOut sh s l))]),
          t.1 = -cfg.shear_val * cfg.v_scale * t.2.1 ∧ t.2.1 = t.2.2 + cfg.line_space := by
        intro t ht
        rcases List.mem_append.mp ht with ht | ht
        · exact hP t ht
        · rw [List.mem_singleton] at ht
          subst ht
          exact ⟨rfl, rfl⟩
      by_cases hf : penY (shapeOut sh s l) + cfg.line_space > s.remaining
      · rw [step_flush sh cfg s l hg.1 hg.2 hf]
        exact hnew
      · rw [step_wrap_no_flush sh cfg s l hg.1 hg.2 hf]
        exact hnew
    · rw [step_no_wrap sh cfg s l hg]
      exact hP

/-- Witness for C5: the first line break of the concrete run inserts the
Move targeting `(20, 20)` from `pen_y = 0` under shear -1, scale 1,
line spacing 20, and it satisfies both equations. -/
theorem break_move_shear_compensation_witness :
    ((20 : ℤ), (20 : ℤ), (0 : ℤ)).1 =
        -cfgW.shear_val * cfgW.v_scale * ((20 : ℤ), (20 : ℤ), (0 : ℤ)).2.1 ∧
      ((20 : ℤ), (20 : ℤ), (0 : ℤ)).2.1 = ((20 : ℤ), (20 : ℤ), (0 : ℤ)).2.2 + cfgW.line_space :=
  break_move_shear_compensation shW cfgW toksBreak ((20 : ℤ), (20 : ℤ), (0 : ℤ)) (by decide)

/-- C6: with a non-negative wrap width, a step inserts a line break
exactly when the consumed token is shapeable, is the word-boundary
token " ", and the projected pen position
`pen_x + shear_value*vertical_scale*pen_y` of the shaped buffer strictly
exceeds `wrap_width`; after any other token no line break is
inserted. -/
theorem wrap_test_iff_word_boundary (sh : Shaper α) (cfg : WrapCfg α)
    (hw : (0 : α) ≤ cfg.wrap) (tokens : List String) (l : String) :
    (step sh cfg (runTokens sh cfg tokens) l).breaks.length =
        (runTokens sh cfg tokens).breaks.length + 1 ↔
      (shapeable sh l = true ∧ l = " " ∧
        projX cfg (shapeOut sh (runTokens sh cfg tokens) l) > cfg.wrap) := by
  constructor
  · intro hlen
    by_cases hg : shapeLC sh (runTokens sh cfg tokens) l = " " ∧
        projX cfg (shapeOut sh (runTokens sh cfg tokens) l) > cfg.wrap
    · by_cases hsh : shapeable sh l = true
      · refine ⟨hsh, ?_, hg.2⟩
        rw [← shapeLC_of_shapeable sh (runTokens sh cfg tokens) l hsh]
        exact hg.1
      · exfalso
        have hshf : shapeable sh l = false := by simpa using hsh
        have ho := shapeOut_of_not_shapeable sh (runTokens sh cfg tokens) l hshf
        have hlc := shapeLC_of_not_shapeable sh (runTokens sh cfg tokens) l hshf
        have hin : projX cfg (runTokens sh cfg tokens).out ≤ cfg.wrap := by
          refine margin_inv sh cfg hw tokens ?_
          rw [← hlc]
          exact hg.1
        rw [ho] at hg
        exact absurd hg.2 (not_lt.mpr hin)
    · rw [step_no_wrap sh cfg (runTokens sh cfg tokens) l hg] at hlen
      simp at hlen
  · rintro ⟨hsh, hl, hproj⟩
    have hlc : shapeLC sh (runTokens sh cfg tokens) l = " " := by
      rw [shapeLC_of_shapeable sh (runTokens sh cfg tokens) l hsh, hl]
    by_cases hf : penY (shapeOut sh (runTokens sh cfg tokens) l) + cfg.line_space >
        (runTokens sh cfg tokens).remaining
    · rw [step_flush sh cfg (runTokens sh cfg tokens) l hlc hproj hf]
      simp
    · rw [step_wrap_no_flush sh cfg (runTokens sh cfg tokens) l hlc hproj hf]
      simp

/-- Witness for C6: after the two-letter word, the space token projects
the pen to 25 > 20, so the step inserts exactly one line break. -/
theorem wrap_test_iff_word_boundary_witness :
    (step shW cfgW (runTokens shW cfgW ["a", "a"]) " ").breaks.length =
      (runTokens shW cfgW ["a", "a"]).breaks.length + 1 :=
  (wrap_test_iff_word_boundary shW cfgW (by decide) ["a", "a"] " ").mpr (by decide)

/-- C9: with a non-negative wrap width, a token matching neither the
letter-form table nor the ligature table only records the diagnostic
"Unsupported Character: …": the stroke buffer, `last_char`,
`current_y`, the emitted pages and the break trace are all unchanged
(the end-of-iteration snapshot copy still runs), and layout continues
with the next token. -/
theorem unshapeable_token_skipped (sh : Shaper α) (cfg : WrapCfg α)
    (hw : (0 : α) ≤ cfg.wrap) (tokens : List String) (l : String)
    (h1 : sh.letter_forms l = none) (h2 : sh.ligatures l = none) :
    step sh cfg (runTokens sh cfg tokens) l =
      { runTokens sh cfg tokens with
        diags := (runTokens sh cfg tokens).diags ++ ["Unsupported Character: " ++ l]
        current_page_strokes := (runTokens sh cfg tokens).out } :=
  step_unshapeable sh cfg (runTokens sh cfg tokens) l (margin_inv sh cfg hw tokens) h1 h2

/-- Witness for C9: the token "~" is unshapeable under the concrete
shaper; after consuming "a" it is skipped with a diagnostic. -/
theorem unshapeable_token_skipped_witness :
    step shW cfgW (runTokens shW cfgW ["a"]) "~" =
      { runTokens shW cfgW ["a"] with
        diags := (runTokens shW cfgW ["a"]).diags ++ ["Unsupported Character: " ++ "~"]
        current_page_strokes := (runTokens shW cfgW ["a"]).out } :=
  unshapeable_token_skipped shW cfgW (by decide) ["a"] "~" (by decide) (by decide)

/-- C4: a page break fires exactly when a line break was inserted and
the new cumulative vertical offset exceeds the current remaining page
height; after a flush `current_y` resets to one `line_space` and the
remaining height to the full `page_height`; the remaining height equals
the inherited budget (`remaining_page_height`, defaulting to
`page_height` when absent) until the first internal page is flushed and
the full `page_height` from then on, so the first internal page is
tested against the caller's budget and every subsequent one against the
full page height. -/
theorem page_break_budget_spec (sh : Shaper α) (cfg : WrapCfg α)
    (tokens : List String) (l : String) :
    ((runTokens sh cfg tokens).svg_list = [] →
        (runTokens sh cfg tokens).remaining = cfg.remaining_page_height.getD cfg.page_height) ∧
      ((runTokens sh cfg tokens).svg_list ≠ [] →
        (runTokens sh cfg tokens).remaining = cfg.page_height) ∧
      ((step sh cfg (runTokens sh cfg tokens) l).svg_list.length =
          (runTokens sh cfg tokens).svg_list.length + 1 ↔
        ((step sh cfg (runTokens sh cfg tokens) l).breaks.length =
            (runTokens sh cfg tokens).breaks.length + 1 ∧
          penY (shapeOut sh (runTokens sh cfg tokens) l) + cfg.line_space >
            (runTokens sh cfg tokens).remaining)) ∧
      ((step sh cfg (runTokens sh cfg tokens) l).svg_list.length =
          (runTokens sh cfg tokens).svg_list.length + 1 →
        (step sh cfg (runTokens sh cfg tokens) l).current_y = cfg.line_space ∧
          (step sh cfg (runTokens sh cfg tokens) l).remaining = cfg.page_height) :=
  ⟨(remaining_inv sh cfg tokens).1, (remaining_inv sh cfg tokens).2,
    step_flush_iff sh cfg (runTokens sh cfg tokens) l,
    fun h => step_flush_resets sh cfg (runTokens sh cfg tokens) l h⟩

/-- Witness for C4: instantiated at the concrete run in which the next
space token forces both a line break and a page break. -/
theorem page_break_budget_spec_witness :
    ((runTokens shW cfgW toksBeforeBreak).svg_list = [] →
        (runTokens shW cfgW toksBeforeBreak).remaining =
          cfgW.remaining_page_height.getD cfgW.page_height) ∧
      ((runTokens shW cfgW toksBeforeBreak).svg_list ≠ [] →
        (runTokens shW cfgW toksBeforeBreak).remaining = cfgW.page_height) ∧
      ((step shW cfgW (runTokens shW cfgW toksBeforeBreak) " ").svg_list.length =
          (runTokens shW cfgW toksBeforeBreak).svg_list.length + 1 ↔
        ((step shW cfgW (runTokens shW cfgW toksBeforeBreak) " ").breaks.length =
            (runTokens shW cfgW toksBeforeBreak).breaks.length + 1 ∧
          penY (shapeOut shW (runTokens shW cfgW toksBeforeBreak) " ") + cfgW.line_space >
            (runTokens shW cfgW toksBeforeBreak).remaining)) ∧
      ((step shW cfgW (runTokens shW cfgW toksBeforeBreak) " ").svg_list.length =
          (runTokens shW cfgW toksBeforeBreak).svg_list.length + 1 →
        (step shW cfgW (runTokens shW cfgW toksBeforeBreak) " ").current_y = cfgW.line_space ∧
          (step shW cfgW (runTokens shW cfgW toksBeforeBreak) " ").remaining =
            cfgW.page_height) :=
  page_break_budget_spec shW cfgW toksBeforeBreak " "

/-- C1 (amended): when an internal page break fires, the page handed to
the Page Finalizer is the snapshot `current_page_strokes` taken at the
end of the previous iteration — not the current buffer minus its
trailing Move, so the breaking token's strokes are on no page — while
the working buffer restarts from a single origin Move `(0,0)` and the
trailing line-break Move survives only as the sole content of the new
flush snapshot. -/
theorem flush_emits_previous_snapshot (sh : Shaper α) (cfg : WrapCfg α)
    (tokens : List String) (l : String)
    (hf : (step sh cfg (runTokens sh cfg tokens) l).svg_list.length =
      (runTokens sh cfg tokens).svg_list.length + 1) :
    (step sh cfg (runTokens sh cfg tokens) l).svg_list =
        (runTokens sh cfg tokens).svg_list ++
          [pageOf cfg (runTokens sh cfg tokens).current_page_strokes] ∧
      (step sh cfg (runTokens sh cfg tokens) l).out = [Cmd.move 0 0] ∧
      (step sh cfg (runTokens sh cfg tokens) l).current_page_strokes =
        [brkMove sh cfg (runTokens sh cfg tokens) l] := by
  set s := runTokens sh cfg tokens with hs
  by_cases hg : shapeLC sh s l = " " ∧ projX cfg (shapeOut sh s l) > cfg.wrap
  · by_cases hfl : penY (shapeOut sh s l) + cfg.line_space > s.remaining
    · rw [step_flush sh cfg s l hg.1 hg.2 hfl]
      exact ⟨rfl, rfl, rfl⟩
    · rw [step_wrap_no_flush sh cfg s l hg.1 hg.2 hfl] at hf
      simp at hf
  · rw [step_no_wrap sh cfg s l hg] at hf
    simp at hf

/-- Witness for the amended C1, at the concrete run whose next space
token forces a page break. -/
theorem flush_emits_previous_snapshot_witness :
    (step shW cfgW (runTokens shW cfgW toksBeforeBreak) " ").svg_list =
        (runTokens shW cfgW toksBeforeBreak).svg_list ++
          [pageOf cfgW (runTokens shW cfgW toksBeforeBreak).current_page_strokes] ∧
      (step shW cfgW (runTokens shW cfgW toksBeforeBreak) " ").out = [Cmd.move 0 0] ∧
      (step shW cfgW (runTokens shW cfgW toksBeforeBreak) " ").current_page_strokes =
        [brkMove shW cfgW (runTokens shW cfgW toksBeforeBreak) " "] :=
  flush_emits_previous_snapshot shW cfgW toksBeforeBreak " " (by decide)

/-- Counterexample to C1 as stated.  In the concrete run the page break
fires while consuming the final space token: the buffer at that moment
is `[move(0,0), draw(10,0), draw(20,0), draw(25,0), move(20,20),
draw(30,20), draw(40,20), draw(50,20), draw(55,20)]` plus the trailing
`move(40,40)`, so the claim demands a first page containing the
finalized image of `draw(55,20)` — which is `draw(35,20)` under scale 1
and shear -1 — and a new buffer seeded with `move(40,40)`.  Instead the
flushed page is the stale previous-iteration snapshot (no `draw(35,20)`
anywhere in the output), the stroke appended for the breaking token
appears on no page at all, and the new working buffer is `[move(0,0)]`,
not the trailing Move. -/
theorem flush_drops_breaking_token_cex :
    Cmd.draw [] 55 20 ∈ shapeOut shW (runTokens shW cfgW toksBeforeBreak) " " ∧
      (runTokens shW cfgW toksBreak).breaks.getLast? = some (40, 40, 20) ∧
      (runTokens shW cfgW toksBreak).out = [Cmd.move 0 0] ∧
      toSvgNoDisplay shW cfgW toksBreak =
        [[Cmd.move 0 0, Cmd.draw [] 10 0, Cmd.draw [] 20 0, Cmd.draw [] 25 0,
          Cmd.move 0 20, Cmd.draw [] 10 20, Cmd.draw [] 20 20, Cmd.draw [] 30 20],
          [Cmd.move 0 40]] ∧
      Cmd.draw [] 35 20 ∉ (toSvgNoDisplay shW cfgW toksBreak).flatten := by decide

/-- The working buffer is never empty along a run, provided the shaper
honours its contract (non-empty table fragments, and `l_extend` /
`concat` preserving non-emptiness of the appended fragment). -/
lemma out_ne_nil (sh : Shaper α) (cfg : WrapCfg α)
    (hcat : ∀ a b, b ≠ [] → sh.concat a b ≠ [])
    (hext : ∀ xs k, xs ≠ [] → sh.l_extend xs k ≠ [])
    (hlf : ∀ l f, sh.letter_forms l = some f → f ≠ [])
    (hlg : ∀ l f, sh.ligatures l = some f → f ≠ [])
    (tokens : List String) : (runTokens sh cfg tokens).out ≠ [] := by
  have hso : ∀ (s : EngState α) (l : String), s.out ≠ [] → shapeOut sh s l ≠ [] := by
    intro s l h
    cases hl : sh.letter_forms l with
    | some f =>
      simp only [shapeOut, hl, shapeWith]
      exact hcat _ _ (hext _ _ (hlf l f hl))
    | none =>
      cases hg : sh.ligatures l with
      | some f =>
        simp only [shapeOut, hl, hg, shapeWith]
        exact hcat _ _ (hext _ _ (hlg l f hg))
      | none => simpa only [shapeOut, hl, hg] using h
  refine run_inv sh cfg (fun s => s.out ≠ []) (by simp [initState]) ?_ tokens
  intro s l hP
  by_cases hg : shapeLC sh s l = " " ∧ projX cfg (shapeOut sh s l) > cfg.wrap
  · by_cases hf : penY (shapeOut sh s l) + cfg.line_space > s.remaining
    · rw [step_flush sh cfg s l hg.1 hg.2 hf]; simp
    · rw [step_wrap_no_flush sh cfg s l hg.1 hg.2 hf]; simp
  · rw [step_no_wrap sh cfg s l hg]
    exact hso s l hP

/-- After any completed iteration the flush snapshot is non-empty. -/
lemma step_cps_ne (sh : Shaper α) (cfg : WrapCfg α) (s : EngState α) (l : String)
    (hcat : ∀ a b, b ≠ [] → sh.concat a b ≠ [])
    (hext : ∀ xs k, xs ≠ [] → sh.l_extend xs k ≠ [])
    (hlf : ∀ l f, sh.letter_forms l = some f → f ≠ [])
    (hlg : ∀ l f, sh.ligatures l = some f → f ≠ [])
    (hout : s.out ≠ []) : (step sh cfg s l).current_page_strokes ≠ [] := by
  by_cases hg : shapeLC sh s l = " " ∧ projX cfg (shapeOut sh s l) > cfg.wrap
  · by_cases hf : penY (shapeOut sh s l) + cfg.line_space > s.remaining
    · rw [step_flush sh cfg s l hg.1 hg.2 hf]; simp
    · rw [step_wrap_no_flush sh cfg s l hg.1 hg.2 hf]; simp
  · rw [step_no_wrap sh cfg s l hg]
    cases hl : sh.letter_forms l with
    | some f =>
      simp only [shapeOut, hl, shapeWith]
      exact hcat _ _ (hext _ _ (hlf l f hl))
    | none =>
      cases hg2 : sh.ligatures l with
      | some f =>
        simp only [shapeOut, hl, hg2, shapeWith]
        exact hcat _ _ (hext _ _ (hlg l f hg2))
      | none => simpa only [shapeOut, hl, hg2] using hout

/-- C7 (amended): at end of input the engine flushes a final page if and
only if the flush snapshot `current_page_strokes` is non-empty, and —
for a shaper honouring its contract — that snapshot is non-empty exactly
when at least one token was consumed.  Hence an empty input yields zero
Finished Pages (and no error), but it is not true that a buffer to which
no stroke content was ever added yields no page: any non-empty input,
even one consisting solely of unshapeable tokens, yields at least one
page. -/
theorem final_flush_iff_nonempty_tokens (sh : Shaper α) (cfg : WrapCfg α)
    (hcat : ∀ a b, b ≠ [] → sh.concat a b ≠ [])
    (hext : ∀ xs k, xs ≠ [] → sh.l_extend xs k ≠ [])
    (hlf : ∀ l f, sh.letter_forms l = some f → f ≠ [])
    (hlg : ∀ l f, sh.ligatures l = some f → f ≠ [])
    (tokens : List String) :
    toSvgNoDisplay sh cfg tokens = [] ↔ tokens = [] := by
  constructor
  · intro h
    by_contra hne
    obtain ⟨ts, t, rfl⟩ : ∃ ts t, tokens = ts ++ [t] := by
      rcases List.eq_nil_or_concat tokens with h0 | ⟨L, b, h0⟩
      · exact absurd h0 hne
      · exact ⟨L, b, by simpa using h0⟩
    have h1 : (runTokens sh cfg (ts ++ [t])).current_page_strokes ≠ [] := by
      rw [runTokens_snoc]
      exact step_cps_ne sh cfg _ t hcat hext hlf hlg (out_ne_nil sh cfg hcat hext hlf hlg ts)
    simp only [toSvgNoDisplay] at h
    rw [if_neg h1] at h
    simp at h
  · rintro rfl
    simp [toSvgNoDisplay, runTokens, initState]

/-- Witness for the amended C7: under the concrete shaper, the
single-token input "~" yields a non-empty page list (the iff instance at
a non-empty input). -/
theorem final_flush_iff_nonempty_tokens_witness :
    toSvgNoDisplay shW cfgW ["~"] = [] ↔ (["~"] : List String) = [] :=
  final_flush_iff_nonempty_tokens shW cfgW
    (fun a b hb h => by
      simp only [shW, List.append_eq_nil, List.map_eq_nil_iff] at h
      exact hb h.2)
    (fun xs k h => by simpa [shW] using h)
    (by
      intro l f h hf
      subst hf
      simp only [shW] at h
      split_ifs at h <;> simp_all)
    (fun l f h => by simp [shW] at h)
    ["~"]

/-- Counterexample to C7 as stated.  After the single unshapeable token
"~" the working buffer is still the bare seed `[move(0,0)]` and the only
event was a diagnostic — no stroke content was ever added — yet the
engine produces one Finished Page (its content the finalized bare
seed), because the final flush tests only `current_page_strokes ≠ []`,
and line 70's snapshot copy made that list non-empty. -/
theorem unshapeable_input_still_pages_cex :
    (runTokens shW cfgW ["~"]).out = [Cmd.move 0 0] ∧
      (runTokens shW cfgW ["~"]).diags = ["Unsupported Character: ~"] ∧
      toSvgNoDisplay shW cfgW ["~"] = [[Cmd.move 0 0]] := by decide

/-- C3 evaluation: a call with non-positive page height (here 0) is not
rejected — the engine has no validation path at all — and full layout
work is performed, producing two finished pages (every line break
overflows the zero budget).  The model, like the source, offers no error
channel for configuration. -/
theorem nonpositive_page_height_not_rejected :
    cfgZeroH.page_height ≤ 0 ∧
      (toSvgNoDisplay shW cfgZeroH ["a", "a", "a", " "]).length = 2 := by decide

/-! ## Packer helper lemmas -/

lemma placeSvgs_count (cfg : PackCfg α) (p : String) :
    ∀ (svgs : List (Svg α)) (st : PackState α),
      st.grafoni_pages.length = st.page_count → st.page_count < cfg.max_pages →
      ((placeSvgs cfg p svgs st).grafoni_pages.length = (placeSvgs cfg p svgs st).page_count ∧
        (placeSvgs cfg p svgs st).page_count ≤ cfg.max_pages) := by
  intro svgs
  induction svgs with
  | nil =>
    intro st h1 h2
    exact ⟨h1, le_of_lt h2⟩
  | cons svg rest ih =>
    intro st h1 h2
    by_cases hfit : st.current_page_height + svg.height + cfg.paragraph_spacing ≤ cfg.page_height
    · simp only [placeSvgs, if_pos hfit]
      exact ih _ h1 h2
    · by_cases hemp : st.current_page = []
      · simp only [placeSvgs, if_neg hfit, if_pos hemp]
        exact ih _ h1 h2
      · simp only [placeSvgs, if_neg hfit, if_neg hemp]
        by_cases hmax : st.page_count + 1 ≥ cfg.max_pages
        · rw [if_pos hmax]
          refine ⟨?_, ?_⟩ <;> simp [h1]
          omega
        · rw [if_neg hmax]
          refine ih _ ?_ ?_ <;> simp [h1]
          omega

lemma packLoop_count (cfg : PackCfg α) (f : String → α → Except String (List (Svg α))) :
    ∀ (ps : List String) (st st2 : PackState α),
      st.grafoni_pages.length = st.page_count → st.page_count ≤ cfg.max_pages →
      packLoop cfg f ps st = .ok st2 →
      (st2.grafoni_pages.length = st2.page_count ∧ st2.page_count ≤ cfg.max_pages) := by
  intro ps
  induction ps with
  | nil =>
    intro st st2 h1 h2 h3
    simp only [packLoop, Except.ok.injEq] at h3
    subst h3
    exact ⟨h1, h2⟩
  | cons p ps ih =>
    intro st st2 h1 h2 h3
    simp only [packLoop] at h3
    by_cases hmax : st.page_count ≥ cfg.max_pages
    · rw [if_pos hmax] at h3
      simp only [Except.ok.injEq] at h3
      subst h3
      exact ⟨h1, h2⟩
    · rw [if_neg hmax] at h3
      cases he : f p (cfg.page_height - st.current_page_height) with
      | error e =>
        rw [he] at h3
        simp at h3
      | ok svgs =>
        rw [he] at h3
        have h4 := placeSvgs_count cfg p svgs st h1 (lt_of_not_ge hmax)
        exact ih _ _ h4.1 h4.2 h3

lemma packLoop_stop (cfg : PackCfg α) (f : String → α → Except String (List (Svg α)))
    (st : PackState α) (h : st.page_count ≥ cfg.max_pages) :
    ∀ ps, packLoop cfg f ps st = .ok st := by
  intro ps
  cases ps with
  | nil => rfl
  | cons p ps => simp only [packLoop, if_pos h]

lemma packLoop_append (cfg : PackCfg α) (f : String → α → Except String (List (Svg α))) :
    ∀ (xs ys : List String) (st : PackState α),
      packLoop cfg f (xs ++ ys) st =
        match packLoop cfg f xs st with
        | .error e => .error e
        | .ok st1 => packLoop cfg f ys st1 := by
  intro xs
  induction xs with
  | nil => intro ys st; rfl
  | cons p xs ih =>
    intro ys st
    by_cases hmax : st.page_count ≥ cfg.max_pages
    · simp only [List.cons_append, packLoop, if_pos hmax]
      exact (packLoop_stop cfg f st hmax ys).symm
    · simp only [List.cons_append, packLoop, if_neg hmax]
      cases he : f p (cfg.page_height - st.current_page_height) with
      | error e => simp
      | ok svgs => exact ih ys _

lemma groupHeight_append (cfg : PackCfg α) (g : Group α) (it : Item α) :
    groupHeight cfg (g ++ [it]) = groupHeight cfg g + (it.2.height + cfg.paragraph_spacing) := by
  simp [groupHeight]

lemma placeSvgs_height (cfg : PackCfg α) (p : String) :
    ∀ (svgs : List (Svg α)) (st : PackState α),
      (∀ sv ∈ svgs, sv.height + cfg.paragraph_spacing ≤ cfg.page_height) →
      groupHeight cfg st.current_page = st.current_page_height →
      (st.current_page ≠ [] → st.current_page_height ≤ cfg.page_height) →
      (∀ g ∈ st.grafoni_pages, groupHeight cfg g ≤ cfg.page_height) →
      (groupHeight cfg (placeSvgs cfg p svgs st).current_page =
          (placeSvgs cfg p svgs st).current_page_height ∧
        ((placeSvgs cfg p svgs st).current_page ≠ [] →
          (placeSvgs cfg p svgs st).current_page_height ≤ cfg.page_height) ∧
        (∀ g ∈ (placeSvgs cfg p svgs st).grafoni_pages,
          groupHeight cfg g ≤ cfg.page_height)) := by
  intro svgs
  induction svgs with
  | nil =>
    intro st _ hgh hcur hpages
    exact ⟨hgh, hcur, hpages⟩
  | cons svg rest ih =>
    intro st hsv hgh hcur hpages
    have hsvtail : ∀ sv ∈ rest, sv.height + cfg.paragraph_spacing ≤ cfg.page_height :=
      fun sv hm => hsv sv (List.mem_cons_of_mem _ hm)
    have hsvhead : svg.height + cfg.paragraph_spacing ≤ cfg.page_height :=
      hsv svg (List.mem_cons_self svg rest)
    by_cases hfit : st.current_page_height + svg.height + cfg.paragraph_spacing ≤ cfg.page_height
    · simp only [placeSvgs, if_pos hfit]
      refine ih _ hsvtail ?_ ?_ hpages
      · rw [groupHeight_append, hgh]
        ring
      · intro _
        exact hfit
    · by_cases hemp : st.current_page = []
      · simp only [placeSvgs, if_neg hfit, if_pos hemp]
        refine ih _ hsvtail ?_ ?_ hpages
        · simp [groupHeight]
        · intro _
          exact hsvhead
      · simp only [placeSvgs, if_neg hfit, if_neg hemp]
        have hpages1 : ∀ g ∈ st.grafoni_pages ++ [st.current_page],
            groupHeight cfg g ≤ cfg.page_height := by
          intro g hg
          rcases List.mem_append.mp hg with hg | hg
          · exact hpages g hg
          · rw [List.mem_singleton] at hg
            subst hg
            rw [hgh]
            exact hcur hemp
        by_cases hmax : st.page_count + 1 ≥ cfg.max_pages
        · rw [if_pos hmax]
          exact ⟨hgh, fun _ => hcur hemp, hpages1⟩
        · rw [if_neg hmax]
          refine ih _ hsvtail ?_ ?_ hpages1
          · simp [groupHeight]
          · intro _
            exact hsvhead

lemma packLoop_height (cfg : PackCfg α) (f : String → α → Except String (List (Svg α)))
    (hfit : ∀ p r svgs, f p r = .ok svgs →
      ∀ sv ∈ svgs, sv.height + cfg.paragraph_spacing ≤ cfg.page_height) :
    ∀ (ps : List String) (st st2 : PackState α),
      groupHeight cfg st.current_page = st.current_page_height →
      (st.current_page ≠ [] → st.current_page_height ≤ cfg.page_height) →
      (∀ g ∈ st.grafoni_pages, groupHeight cfg g ≤ cfg.page_height) →
      packLoop cfg f ps st = .ok st2 →
      (groupHeight cfg st2.current_page = st2.current_page_height ∧
        (st2.current_page ≠ [] → st2.current_page_height ≤ cfg.page_height) ∧
        (∀ g ∈ st2.grafoni_pages, groupHeight cfg g ≤ cfg.page_height)) := by
  intro ps
  induction ps with
  | nil =>
    intro st st2 h1 h2 h3 h4
    simp only [packLoop, Except.ok.injEq] at h4
    subst h4
    exact ⟨h1, h2, h3⟩
  | cons p ps ih =>
    intro st st2 h1 h2 h3 h4
    simp only [packLoop] at h4
    by_cases hmax : st.page_count ≥ cfg.max_pages
    · rw [if_pos hmax] at h4
      simp only [Except.ok.injEq] at h4
      subst h4
      exact ⟨h1, h2, h3⟩
    · rw [if_neg hmax] at h4
      cases he : f p (cfg.page_height - st.current_page_height) with
      | error e =>
        rw [he] at h4
        simp at h4
      | ok svgs =>
        rw [he] at h4
        have h5 := placeSvgs_height cfg p svgs st (hfit p _ svgs he) h1 h2 h3
        exact ih _ _ h5.1 h5.2.1 h5.2.2 h4

/-! ## Packer claim theorems -/

/-- C10: for every input and every `max_pages`, the packer returns at
most `max_pages` Page Groups — once `max_pages` groups have been sealed
the remaining paragraphs and any pending unsealed group are discarded
rather than emitted. -/
theorem convertText_length_le_max_pages (cfg : PackCfg α)
    (f : String → α → Except String (List (Svg α))) (paragraphs : List String) :
    (convertText cfg f paragraphs).length ≤ cfg.max_pages := by
  cases hp : packLoop cfg f paragraphs initPack with
  | error e => simp [convertText, hp]
  | ok st =>
    have h := packLoop_count cfg f paragraphs initPack st rfl (Nat.zero_le _) hp
    have hrw : convertText cfg f paragraphs = st.grafoni_pages ++
        (if st.current_page ≠ [] ∧ st.page_count < cfg.max_pages
          then [st.current_page] else []) := by
      simp only [convertText, hp]
    rw [hrw]
    by_cases hc : st.current_page ≠ [] ∧ st.page_count < cfg.max_pages
    · rw [if_pos hc]
      simp only [List.length_append, List.length_singleton, h.1]
      omega
    · rw [if_neg hc]
      simp only [List.append_nil, h.1]
      exact h.2

/-- C8 (amended): the packer appends a Finished Page to the current
group exactly when `group_height_used + page.height + spacing ≤
physical_page_height`; consequently, provided every Finished Page
itself fits within the budget (`height + spacing ≤
physical_page_height`), no group the packer returns — sealed or final —
accumulates more than the physical page height.  (Without that proviso
a single oversized page starts a group that already exceeds the budget,
and when the max-page cap is reached a sealed group is not reseeded with
the overflowing page.) -/
theorem group_budget_with_fitting_pages (cfg : PackCfg α)
    (f : String → α → Except String (List (Svg α)))
    (hfit : ∀ p r svgs, f p r = .ok svgs →
      ∀ sv ∈ svgs, sv.height + cfg.paragraph_spacing ≤ cfg.page_height)
    (paragraphs : List String) :
    ∀ g ∈ convertText cfg f paragraphs, groupHeight cfg g ≤ cfg.page_height := by
  cases hp : packLoop cfg f paragraphs initPack with
  | error e => simp [convertText, hp]
  | ok st =>
    have h := packLoop_height cfg f hfit paragraphs initPack st (by simp [initPack, groupHeight])
      (fun hx => absurd rfl hx) (by simp [initPack]) hp
    have hrw : convertText cfg f paragraphs = st.grafoni_pages ++
        (if st.current_page ≠ [] ∧ st.page_count < cfg.max_pages
          then [st.current_page] else []) := by
      simp only [convertText, hp]
    rw [hrw]
    intro g hg
    rcases List.mem_append.mp hg with hg | hg
    · exact h.2.2 g hg
    · by_cases hc : st.current_page ≠ [] ∧ st.page_count < cfg.max_pages
      · rw [if_pos hc, List.mem_singleton] at hg
        subst hg
        rw [h.1]
        exact h.2.1 hc.1
      · rw [if_neg hc] at hg
        simp at hg

/-- Witness for the amended C8: with pages of height 10 against budget
100, the single returned group respects the budget. -/
theorem group_budget_with_fitting_pages_witness :
    groupHeight packCfgW [("a", Svg.mk 10), ("b", Svg.mk 10)] ≤ packCfgW.page_height :=
  group_budget_with_fitting_pages packCfgW toSvgSmall
    (fun p r svgs h sv hsv => by
      simp only [toSvgSmall, Except.ok.injEq] at h
      subst h
      simp only [List.mem_singleton] at hsv
      subst hsv
      decide)
    ["a", "b"] [("a", Svg.mk 10), ("b", Svg.mk 10)] (by decide)

/-- Counterexample to C8 as stated.  A paragraph producing two pages of
height 200 against a physical budget of 100: the first page does not fit
the empty group, so it seeds a new group whose accumulated height
202 already exceeds the budget; that group is then sealed when the
second page arrives.  The sealed first group's accumulated height is
202 > 100, refuting "no sealed group's accumulated height exceeds the
physical page budget". -/
theorem oversized_page_breaks_budget_cex :
    convertText packCfgW toSvgBig ["p"] =
        [[("p", Svg.mk 200)], [("p", Svg.mk 200)]] ∧
      groupHeight packCfgW [("p", Svg.mk 200)] > packCfgW.page_height := by decide

/-- C2 (amended): if the engine raises on any paragraph the packer
actually reaches (all earlier paragraphs packed without error and the
max-page cap not yet hit), `convert_text` catches the error outside the
whole paragraph loop and returns the empty list — discarding every
group already sealed and never reaching the remaining paragraphs —
rather than skipping only the failing paragraph. -/
theorem paragraph_failure_aborts_run (cfg : PackCfg α)
    (f : String → α → Except String (List (Svg α)))
    (ps1 : List String) (p : String) (ps2 : List String) (st : PackState α)
    (h1 : packLoop cfg f ps1 initPack = .ok st)
    (h2 : st.page_count < cfg.max_pages)
    (h3 : ∀ r, ∃ e, f p r = .error e) :
    convertText cfg f (ps1 ++ p :: ps2) = [] := by
  obtain ⟨e, he⟩ := h3 (cfg.page_height - st.current_page_height)
  have hrun : packLoop cfg f (ps1 ++ p :: ps2) initPack = .error e := by
    rw [packLoop_append cfg f ps1 (p :: ps2) initPack, h1]
    simp only [packLoop, if_neg (not_le.mpr h2), he]
  simp [convertText, hrun]

/-- Witness for the amended C2: paragraph "a" packs fine (one sealed
group), paragraph "bad" raises, and the whole conversion returns the
empty list. -/
theorem paragraph_failure_aborts_run_witness :
    convertText packCfgW toSvgFail (["a"] ++ "bad" :: ["c"]) = [] :=
  paragraph_failure_aborts_run packCfgW toSvgFail ["a"] "bad" ["c"]
    ⟨[[("a", Svg.mk 90)]], [("a", Svg.mk 90)], 92, 1⟩
    (by rfl) (by decide)
    (fun r => ⟨"boom", by simp [toSvgFail]⟩)

/-- Counterexample to C2 as stated.  With the failing middle paragraph
the run returns no groups at all, although the first paragraph succeeds
— on its own it seals one group and yields two — so the sealed group is
not preserved, the following paragraph is never processed, and the
result does not reflect the paragraphs that succeeded. -/
theorem paragraph_failure_discards_sealed_cex :
    convertText packCfgW toSvgFail ["a", "bad", "c"] = [] ∧
      convertText packCfgW toSvgFail ["a"] =
        [[("a", Svg.mk 90)], [("a", Svg.mk 90)]] := by decide

end AutoGrafoni
